import Mathlib

/-!
Verification of `cvpysdk/subclients/postgressubclient.py` (class `PostgresSubclient`).

The module is a data-shaping / request-delegation layer.  We embed the
JSON-like Python values the module manipulates as the inductive type `PyVal`
(with Python truthiness), and each method as a pure Lean function:

* `content` — the `content` property (reads of the raw subclient-properties
  mapping; a result of `Except.error ()` models a raised Python exception,
  `Except.ok none` models the implicit `return None`);
* `backup` — the `backup` method; the result records which path was taken:
  `BackupResult.base l` models delegation to the generic base-class
  `Subclient.backup(l)` (no request document is built and this method makes
  no transport call), `BackupResult.prefixed req` models building the
  prefixed request document and POSTing it to the CREATE_TASK endpoint; an
  `Except.error` models the `SDKException` raised before either happens;
* `backup_request_json` — the `_backup_request_json` method;
* `get_subclient_properties` — the `_get_subclient_properties` method,
  taking the post-`super()` properties mapping (the server payload) as input;
* `restore_postgres_server` — the method of the same name; the result is the
  ordered list of effects it performs on the shared instance collaborator:
  setting `_restore_association`, then calling `restore_in_place` with the
  resolved parameters.
-/

/-- A JSON-like Python value: `None`, bool, int, str, list, dict. -/
inductive PyVal where
  | vnone : PyVal
  | vbool : Bool → PyVal
  | vint : Int → PyVal
  | vstr : String → PyVal
  | vlist : List PyVal → PyVal
  | vdict : List (String × PyVal) → PyVal

/-- Python truthiness of a `PyVal`. -/
def truthy : PyVal → Bool
  | .vnone => false
  | .vbool b => b
  | .vint n => n != 0
  | .vstr s => s != ""
  | .vlist xs => !xs.isEmpty
  | .vdict kvs => !kvs.isEmpty

/-- Dictionary lookup (`d[k]` / `k in d`); keys are unique in a Python dict,
so first-match lookup is faithful. -/
def dictGet : List (String × PyVal) → String → Option PyVal
  | [], _ => none
  | (k', v) :: rest, k => if k' = k then some v else dictGet rest k

/-- dict update of a single key (`d[k] = v` / one entry of `d.update(...)`):
replaces the value in place if the key exists, appends otherwise. -/
def dictSet : List (String × PyVal) → String → PyVal → List (String × PyVal)
  | [], k, v => [(k, v)]
  | (k', v') :: rest, k, v =>
    if k' = k then (k, v) :: rest else (k', v') :: dictSet rest k v

/-- Lowercasing of one character, the ASCII fragment of Python `str.lower`
(all strings compared by this module are ASCII). -/
def pyLowerChar (c : Char) : Char :=
  if 'A' ≤ c ∧ c ≤ 'Z' then Char.ofNat (c.toNat + 32) else c

/-- The ASCII fragment of Python `str.lower`. -/
def pyLower (s : String) : String :=
  String.mk (s.data.map pyLowerChar)

/-- Python `s.lstrip("/")`: drop every leading slash. -/
def lstripSlash (s : String) : String :=
  String.mk (s.data.dropWhile (fun c => c = '/'))

/-- `SDKException(mod, code)` as raised by the module. -/
structure SDKException where
  excModule : String
  excCode : String
deriving DecidableEq

/-- Extracts the database name of one raw content entry exactly when the
entry is well formed in the sense of the spec: a dict whose
`postgreSQLContent` key holds a dict whose `databaseName` key holds a
non-empty string.  Returns `none` otherwise. -/
def entryDB (e : PyVal) : Option String :=
  match e with
  | .vdict kvs =>
    match (dictGet kvs "postgreSQLContent").getD .vnone with
    | .vdict pg =>
      match (dictGet pg "databaseName").getD .vnone with
      | .vstr s => if s = "" then none else some s
      | _ => none
    | _ => none
  | _ => none

/-- A raw content entry is well formed when it carries a non-empty
`databaseName` string under the `postgreSQLContent` key. -/
def wellFormedEntry (e : PyVal) : Bool :=
  (entryDB e).isSome

/-- The raw database name of a well-formed entry (and `""` otherwise). -/
def entryName (e : PyVal) : String :=
  (entryDB e).getD ""

/-- A raw content entry is malformed in the sense of the spec when it is a
dict that is missing the `postgreSQLContent` key (or holds an empty / falsy
value there), or whose `postgreSQLContent` dict is missing the
`databaseName` key (or holds an empty / falsy value there). -/
def claimMalformed (e : PyVal) : Bool :=
  match e with
  | .vdict kvs =>
    let pgc := (dictGet kvs "postgreSQLContent").getD .vnone
    if truthy pgc then
      match pgc with
      | .vdict pg =>
        let dbn := (dictGet pg "databaseName").getD .vnone
        if truthy dbn then false else true
      | _ => false
    else true
  | _ => false

/-- The `for database in self._content:` loop of the `content` property.
`Except.error ()` models a raised Python exception: `.get` on a value that
is not a dict raises `AttributeError`, as does `.lstrip` on a value that is
not a string. -/
def contentLoop : List PyVal → Except Unit (List String)
  | [] => .ok []
  | e :: rest =>
    match e with
    | .vdict kvs =>
      let pgc := (dictGet kvs "postgreSQLContent").getD .vnone
      if truthy pgc then
        match pgc with
        | .vdict pg =>
          let dbn := (dictGet pg "databaseName").getD .vnone
          if truthy dbn then
            match dbn with
            | .vstr s => (contentLoop rest).map (fun l => lstripSlash s :: l)
            | _ => .error ()
          else contentLoop rest
        | _ => .error ()
      else contentLoop rest
    | _ => .error ()

/-- The `content` property.  `is_default` is the inherited
`is_default_subclient` flag, `props` the raw `_subclient_properties`
mapping.  `Except.ok none` models the property returning `None` (the
implicit return when the guard `if not self._content is None` is false);
iterating a non-list `content` value either raises (modelled by
`Except.error ()`) or, for an empty string / empty dict, runs the loop zero
times. -/
def content (is_default : Bool) (props : List (String × PyVal)) :
    Except Unit (Option (List String)) :=
  let c : Option PyVal := if is_default then none else dictGet props "content"
  match c with
  | none => .ok none
  | some v =>
    match v with
    | .vnone => .ok none
    | .vlist entries => (contentLoop entries).map some
    | .vstr s => if s = "" then .ok (some []) else .error ()
    | .vdict kvs => if kvs.isEmpty then .ok (some []) else .error ()
    | _ => .error ()

/-- Modelled from the spec: the generic backup-request envelope
`Subclient._backup_json` from the base class is not part of the sources
verified here.  Per the spec it is parameterized by the backup level, a
flag meaning "synthetic full" (the caller passes `False`, i.e. not a
synthetic full), and the "before synthetic full" strategy tag, and produces
a task / subtask / options envelope whose first subtask carries a
`backupOpts` block. -/
def backup_json (backupLevel : String) (syntheticFull : Bool)
    (strategy : String) : PyVal :=
  .vdict [("taskInfo", .vdict [
    ("task", .vdict []),
    ("subTasks", .vlist [.vdict [
      ("subTask", .vdict []),
      ("options", .vdict [
        ("backupOpts", .vdict [
          ("backupLevel", .vstr backupLevel),
          ("syntheticFull", .vbool syntheticFull),
          ("strategy", .vstr strategy)])])]])])]

/-- Lookup of a key in a JSON value (`none` models `KeyError` /
`AttributeError`). -/
def jget (v : PyVal) (k : String) : Option PyVal :=
  match v with
  | .vdict kvs => dictGet kvs k
  | _ => none

/-- Index into a JSON list (`none` models `IndexError`). -/
def jat (v : PyVal) (i : Nat) : Option PyVal :=
  match v with
  | .vlist xs => xs.get? i
  | _ => none

/-- Functional update under one dict key; `none` models `KeyError`. -/
def jsetKey (v : PyVal) (k : String) (f : PyVal → Option PyVal) : Option PyVal :=
  match v with
  | .vdict kvs =>
    match dictGet kvs k with
    | some old => (f old).map (fun nv => .vdict (dictSet kvs k nv))
    | none => none
  | _ => none

/-- Functional update under one list index; `none` models `IndexError`. -/
def jsetIdx (v : PyVal) (i : Nat) (f : PyVal → Option PyVal) : Option PyVal :=
  match v with
  | .vlist xs =>
    match xs.get? i with
    | some old => (f old).map (fun nv => .vlist (xs.set i nv))
    | none => none
  | _ => none

/-- The in-place merge
`request_json["taskInfo"]["subTasks"][0]["options"]["backupOpts"].update(extra)`
of `_backup_request_json`, written functionally. -/
def updBackupOpts (rj : PyVal) (extra : List (String × PyVal)) : Option PyVal :=
  jsetKey rj "taskInfo" (fun ti =>
    jsetKey ti "subTasks" (fun sts =>
      jsetIdx sts 0 (fun st =>
        jsetKey st "options" (fun o =>
          jsetKey o "backupOpts" (fun bo =>
            match bo with
            | .vdict kvs =>
              some (.vdict (extra.foldl (fun acc p => dictSet acc p.1 p.2) kvs))
            | _ => none)))))

/-- `_backup_request_json`: starts from
`self._backup_json(backup_level, False, "BEFORE_SYNTH")` and merges the
`hanaOptions` block carrying the prefix into the `backupOpts` block.  The
update path always exists in the envelope, so the `.getD .vnone` fallback
(which would model a `KeyError`) is never taken. -/
def backup_request_json (level : String) (pre : String) : PyVal :=
  (updBackupOpts (backup_json level false "BEFORE_SYNTH")
    [("hanaOptions", .vdict [("backupPrefix", .vstr pre)])]).getD .vnone

/-- Outcome of a `backup` call that passed validation. -/
inductive BackupResult where
  | base (level : String)
  | prefixed (req : PyVal)

/-- The `backup` method: lowercases the level, raises
`SDKException('Subclient', '103')` for an unrecognized level (before any
request document is built and before any transport call — the error branch
neither builds nor carries a request), otherwise either delegates to the
generic base-class backup with only the lowercased level (`.base`) or
builds the prefixed request document and submits it (`.prefixed`). -/
def backup (level : String) (pre : Option String) :
    Except SDKException BackupResult :=
  let l := pyLower level
  if l ∉ (["full", "incremental", "differential"] : List String) then
    .error ⟨"Subclient", "103"⟩
  else
    match pre with
    | none => .ok (.base l)
    | some p => .ok (.prefixed (backup_request_json l p))

/-- `_get_subclient_properties`: the input is the `_subclient_properties`
mapping as populated by the `super()` call (the server payload); the result
is the updated mapping together with the value read back for
`_postgres_properties` (`none` would model a `KeyError` on the final
indexing). -/
def get_subclient_properties (props : List (String × PyVal)) :
    List (String × PyVal) × Option PyVal :=
  let props' :=
    if (dictGet props "postgreSQLSubclientProp").isSome then props
    else dictSet props "postgreSQLSubclientProp" (.vdict [])
  (props', dictGet props' "postgreSQLSubclientProp")

/-- Identity fields reached from the subclient through the ownership chain
(`self._backupset_object`, its `_instance_object`, that instance's agent's
client), plus this subclient's `_subClientEntity`. -/
structure RestoreEnv where
  clientName : String
  instanceName : String
  backupsetName : String
  subClientEntity : PyVal

/-- The argument record of the downstream
`instance_object.restore_in_place(...)` call. -/
structure RestoreCall where
  databaseList : Option (List String)
  destClientName : String
  destInstanceName : String
  backupsetName : String
  backupsetFlag : Bool
  copyPrecedence : Option Int
  fromTime : Option String
  toTime : Option String
  cloneEnv : Bool
  cloneOptions : Option PyVal

/-- Effects `restore_postgres_server` performs on the shared instance
collaborator, in order. -/
inductive REvent where
  | setRestoreAssociation (entity : PyVal)
  | restoreInPlace (call : RestoreCall)

/-- The `restore_postgres_server` method: resolves destination defaults
from the ownership chain, forces the database list and sets the backupset
flag for a filesystem-based backupset, assigns
`instance_object._restore_association = self._subClientEntity`, then
delegates to `restore_in_place`.  The result is the ordered effect list. -/
def restore_postgres_server (env : RestoreEnv)
    (databaseList : Option (List String))
    (destClientName : Option String) (destInstanceName : Option String)
    (copyPrecedence : Option Int) (fromTime : Option String)
    (toTime : Option String) (cloneEnv : Bool)
    (cloneOptions : Option PyVal) : List REvent :=
  let dcn := match destClientName with
    | none => env.clientName
    | some c => c
  let din := match destInstanceName with
    | none => env.instanceName
    | some i => i
  let bsn := env.backupsetName
  let fl : Bool × Option (List String) :=
    if pyLower bsn = "fsbasedbackupset" then (true, some ["/data"])
    else (false, databaseList)
  [ .setRestoreAssociation env.subClientEntity,
    .restoreInPlace
      { databaseList := fl.2
        destClientName := dcn
        destInstanceName := din
        backupsetName := bsn
        backupsetFlag := fl.1
        copyPrecedence := copyPrecedence
        fromTime := fromTime
        toTime := toTime
        cloneEnv := cloneEnv
        cloneOptions := cloneOptions } ]

/-- Trichotomy for one iteration of the content loop: a well-formed entry
contributes its stripped name, an entry malformed in the spec's sense is
skipped, and any other entry makes the loop raise. -/
theorem contentLoop_cons (e : PyVal) (rest : List PyVal) :
    (claimMalformed e = false ∧ wellFormedEntry e = true ∧
      contentLoop (e :: rest) =
        (contentLoop rest).map (fun l => lstripSlash (entryName e) :: l))
    ∨ (claimMalformed e = true ∧ wellFormedEntry e = false ∧
      contentLoop (e :: rest) = contentLoop rest)
    ∨ (claimMalformed e = false ∧ wellFormedEntry e = false ∧
      contentLoop (e :: rest) = Except.error ()) := by
  cases e with
  | vnone => exact Or.inr (Or.inr ⟨rfl, rfl, rfl⟩)
  | vbool b => exact Or.inr (Or.inr ⟨rfl, rfl, rfl⟩)
  | vint n => exact Or.inr (Or.inr ⟨rfl, rfl, rfl⟩)
  | vstr s => exact Or.inr (Or.inr ⟨rfl, rfl, rfl⟩)
  | vlist xs => exact Or.inr (Or.inr ⟨rfl, rfl, rfl⟩)
  | vdict kvs =>
    cases hpg : (dictGet kvs "postgreSQLContent").getD PyVal.vnone with
    | vnone =>
      exact Or.inr (Or.inl ⟨by simp [claimMalformed, hpg, truthy],
        by simp [wellFormedEntry, entryDB, hpg],
        by simp [contentLoop, hpg, truthy]⟩)
    | vbool b =>
      cases hb : truthy (PyVal.vbool b) with
      | false =>
        exact Or.inr (Or.inl ⟨by simp [claimMalformed, hpg, hb],
          by simp [wellFormedEntry, entryDB, hpg],
          by simp [contentLoop, hpg, hb]⟩)
      | true =>
        exact Or.inr (Or.inr ⟨by simp [claimMalformed, hpg, hb],
          by simp [wellFormedEntry, entryDB, hpg],
          by simp [contentLoop, hpg, hb]⟩)
    | vint n =>
      cases hb : truthy (PyVal.vint n) with
      | false =>
        exact Or.inr (Or.inl ⟨by simp [claimMalformed, hpg, hb],
          by simp [wellFormedEntry, entryDB, hpg],
          by simp [contentLoop, hpg, hb]⟩)
      | true =>
        exact Or.inr (Or.inr ⟨by simp [claimMalformed, hpg, hb],
          by simp [wellFormedEntry, entryDB, hpg],
          by simp [contentLoop, hpg, hb]⟩)
    | vstr s =>
      cases hb : truthy (PyVal.vstr s) with
      | false =>
        exact Or.inr (Or.inl ⟨by simp [claimMalformed, hpg, hb],
          by simp [wellFormedEntry, entryDB, hpg],
          by simp [contentLoop, hpg, hb]⟩)
      | true =>
        exact Or.inr (Or.inr ⟨by simp [claimMalformed, hpg, hb],
          by simp [wellFormedEntry, entryDB, hpg],
          by simp [contentLoop, hpg, hb]⟩)
    | vlist xs =>
      cases hb : truthy (PyVal.vlist xs) with
      | false =>
        exact Or.inr (Or.inl ⟨by simp [claimMalformed, hpg, hb],
          by simp [wellFormedEntry, entryDB, hpg],
          by simp [contentLoop, hpg, hb]⟩)
      | true =>
        exact Or.inr (Or.inr ⟨by simp [claimMalformed, hpg, hb],
          by simp [wellFormedEntry, entryDB, hpg],
          by simp [contentLoop, hpg, hb]⟩)
    | vdict pg =>
      cases hdb : (dictGet pg "databaseName").getD PyVal.vnone with
      | vnone =>
        refine Or.inr (Or.inl ⟨?_, ?_, ?_⟩)
        · simp [claimMalformed, hpg, hdb, truthy]
        · simp [wellFormedEntry, entryDB, hpg, hdb]
        · simp [contentLoop, hpg, hdb, truthy]
      | vstr s =>
        have hne : truthy (PyVal.vdict pg) = true := by
          cases pg with
          | nil => simp [dictGet] at hdb
          | cons a l => rfl
        by_cases hs : s = ""
        · subst hs
          refine Or.inr (Or.inl ⟨?_, ?_, ?_⟩)
          · simp [claimMalformed, hpg, hdb, hne, truthy]
          · simp [wellFormedEntry, entryDB, hpg, hdb]
          · simp [contentLoop, hpg, hdb, hne, truthy]
        · have hpgnil : pg ≠ [] := by
            intro h
            subst h
            simp [dictGet] at hdb
          refine Or.inl ⟨?_, ?_, ?_⟩
          · simp [claimMalformed, hpg, hdb, hne, truthy, hs, hpgnil]
          · simp [wellFormedEntry, entryDB, hpg, hdb, hs]
          · simp [contentLoop, entryName, entryDB, hpg, hdb, hne, truthy, hs, hpgnil]
      | vbool b =>
        have hne : truthy (PyVal.vdict pg) = true := by
          cases pg with
          | nil => simp [dictGet] at hdb
          | cons a l => rfl
        cases hb : truthy (PyVal.vbool b) with
        | false =>
          exact Or.inr (Or.inl ⟨by simp [claimMalformed, hpg, hdb, hne, hb],
            by simp [wellFormedEntry, entryDB, hpg, hdb],
            by simp [contentLoop, hpg, hdb, hne, hb]⟩)
        | true =>
          exact Or.inr (Or.inr ⟨by simp [claimMalformed, hpg, hdb, hne, hb],
            by simp [wellFormedEntry, entryDB, hpg, hdb],
            by simp [contentLoop, hpg, hdb, hne, hb]⟩)
      | vint n =>
        have hne : truthy (PyVal.vdict pg) = true := by
          cases pg with
          | nil => simp [dictGet] at hdb
          | cons a l => rfl
        cases hb : truthy (PyVal.vint n) with
        | false =>
          exact Or.inr (Or.inl ⟨by simp [claimMalformed, hpg, hdb, hne, hb],
            by simp [wellFormedEntry, entryDB, hpg, hdb],
            by simp [contentLoop, hpg, hdb, hne, hb]⟩)
        | true =>
          exact Or.inr (Or.inr ⟨by simp [claimMalformed, hpg, hdb, hne, hb],
            by simp [wellFormedEntry, entryDB, hpg, hdb],
            by simp [contentLoop, hpg, hdb, hne, hb]⟩)
      | vlist xs =>
        have hne : truthy (PyVal.vdict pg) = true := by
          cases pg with
          | nil => simp [dictGet] at hdb
          | cons a l => rfl
        cases hb : truthy (PyVal.vlist xs) with
        | false =>
          exact Or.inr (Or.inl ⟨by simp [claimMalformed, hpg, hdb, hne, hb],
            by simp [wellFormedEntry, entryDB, hpg, hdb],
            by simp [contentLoop, hpg, hdb, hne, hb]⟩)
        | true =>
          exact Or.inr (Or.inr ⟨by simp [claimMalformed, hpg, hdb, hne, hb],
            by simp [wellFormedEntry, entryDB, hpg, hdb],
            by simp [contentLoop, hpg, hdb, hne, hb]⟩)
      | vdict d =>
        have hne : truthy (PyVal.vdict pg) = true := by
          cases pg with
          | nil => simp [dictGet] at hdb
          | cons a l => rfl
        cases hb : truthy (PyVal.vdict d) with
        | false =>
          exact Or.inr (Or.inl ⟨by simp [claimMalformed, hpg, hdb, hne, hb],
            by simp [wellFormedEntry, entryDB, hpg, hdb],
            by simp [contentLoop, hpg, hdb, hne, hb]⟩)
        | true =>
          exact Or.inr (Or.inr ⟨by simp [claimMalformed, hpg, hdb, hne, hb],
            by simp [wellFormedEntry, entryDB, hpg, hdb],
            by simp [contentLoop, hpg, hdb, hne, hb]⟩)

/-- A well-formed entry contributes its stripped name to the loop result. -/
theorem contentLoop_cons_wf (e : PyVal) (rest : List PyVal)
    (h : wellFormedEntry e = true) :
    contentLoop (e :: rest) =
      (contentLoop rest).map (fun l => lstripSlash (entryName e) :: l) := by
  rcases contentLoop_cons e rest with ⟨_, _, hc⟩ | ⟨_, hw, _⟩ | ⟨_, hw, _⟩
  · exact hc
  · exact absurd (h.symm.trans hw) (by decide)
  · exact absurd (h.symm.trans hw) (by decide)

/-- A malformed entry is skipped by the loop. -/
theorem contentLoop_cons_malformed (e : PyVal) (rest : List PyVal)
    (h : claimMalformed e = true) :
    contentLoop (e :: rest) = contentLoop rest := by
  rcases contentLoop_cons e rest with ⟨hm, _, _⟩ | ⟨_, _, hc⟩ | ⟨hm, _, _⟩
  · exact absurd (h.symm.trans hm) (by decide)
  · exact hc
  · exact absurd (h.symm.trans hm) (by decide)

/-- Malformed entries are never well formed. -/
theorem claimMalformed_not_wf (e : PyVal) (h : claimMalformed e = true) :
    wellFormedEntry e = false := by
  rcases contentLoop_cons e [] with ⟨hm, _, _⟩ | ⟨_, hw, _⟩ | ⟨hm, _, _⟩
  · exact absurd (h.symm.trans hm) (by decide)
  · exact hw
  · exact absurd (h.symm.trans hm) (by decide)

/-- On all-well-formed entries the loop returns every stripped name in
order. -/
theorem contentLoop_wf_list (entries : List PyVal)
    (hw : ∀ e ∈ entries, wellFormedEntry e = true) :
    contentLoop entries =
      Except.ok (entries.map fun e => lstripSlash (entryName e)) := by
  induction entries with
  | nil => rfl
  | cons e rest ih =>
    rw [contentLoop_cons_wf e rest (hw e (List.mem_cons_self e rest)),
      ih (fun x hx => hw x (List.mem_cons_of_mem e hx))]
    rfl

/-- On entries that are each well formed or malformed, the loop succeeds
and keeps exactly the well-formed ones, in order. -/
theorem contentLoop_mixed (entries : List PyVal)
    (h : ∀ e ∈ entries, wellFormedEntry e = true ∨ claimMalformed e = true) :
    contentLoop entries =
      Except.ok ((entries.filter fun e => wellFormedEntry e).map
        fun e => lstripSlash (entryName e)) := by
  induction entries with
  | nil => rfl
  | cons e rest ih =>
    have ih' := ih (fun x hx => h x (List.mem_cons_of_mem e hx))
    rcases h e (List.mem_cons_self e rest) with hw | hm
    · rw [contentLoop_cons_wf e rest hw, ih']
      simp [List.filter_cons, hw, Except.map]
    · rw [contentLoop_cons_malformed e rest hm, ih']
      simp [List.filter_cons, claimMalformed_not_wf e hm, Except.map]

/-- If the loop returns the empty list, no entry was well formed. -/
theorem contentLoop_ok_nil (entries : List PyVal)
    (h : contentLoop entries = Except.ok []) :
    ∀ e ∈ entries, wellFormedEntry e = false := by
  induction entries with
  | nil => intro e he; cases he
  | cons e rest ih =>
    intro x hx
    rcases contentLoop_cons e rest with ⟨_, hw, hc⟩ | ⟨_, hw, hc⟩ | ⟨_, hw, hc⟩
    · rw [hc] at h
      exfalso
      cases hcr : contentLoop rest with
      | error u =>
        rw [hcr] at h
        exact Except.noConfusion h
      | ok l =>
        rw [hcr] at h
        simp [Except.map] at h
    · rw [hc] at h
      rcases List.mem_cons.mp hx with rfl | hx'
      · exact hw
      · exact ih h x hx'
    · rw [hc] at h
      exact absurd h (by simp)

/-- C2: on a non-default subclient whose raw `content` property is a list of
N well-formed entries (each holding a non-empty `databaseName` string under
`postgreSQLContent`), the `content` property returns exactly the N database
names, leading slashes stripped, in the original order. -/
theorem content_wellformed_entries (props : List (String × PyVal))
    (entries : List PyVal)
    (hc : dictGet props "content" = some (PyVal.vlist entries))
    (hw : ∀ e ∈ entries, wellFormedEntry e = true) :
    content false props =
      Except.ok (some (entries.map fun e => lstripSlash (entryName e)))
    ∧ (entries.map fun e => lstripSlash (entryName e)).length =
      entries.length := by
  refine ⟨?_, by simp⟩
  simp [content, hc, contentLoop_wf_list entries hw, Except.map]

/-- Concrete instance of the C2 theorem. -/
theorem content_wellformed_entries_w :
    content false [("content", PyVal.vlist
      [PyVal.vdict [("postgreSQLContent",
          PyVal.vdict [("databaseName", PyVal.vstr "//db1")])],
       PyVal.vdict [("postgreSQLContent",
          PyVal.vdict [("databaseName", PyVal.vstr "db2")])]])] =
      Except.ok (some ["db1", "db2"]) := by
  have h := content_wellformed_entries
    [("content", PyVal.vlist
      [PyVal.vdict [("postgreSQLContent",
          PyVal.vdict [("databaseName", PyVal.vstr "//db1")])],
       PyVal.vdict [("postgreSQLContent",
          PyVal.vdict [("databaseName", PyVal.vstr "db2")])]])]
    [PyVal.vdict [("postgreSQLContent",
        PyVal.vdict [("databaseName", PyVal.vstr "//db1")])],
     PyVal.vdict [("postgreSQLContent",
        PyVal.vdict [("databaseName", PyVal.vstr "db2")])]]
    (by simp [dictGet]) (by decide)
  exact h.1.trans rfl

/-- C7: entries malformed in the sense of the claim (missing or falsy
`postgreSQLContent`, or missing / empty `databaseName`) are excluded from
the result, and reading `content` on such a structure does not raise. -/
theorem content_malformed_excluded (props : List (String × PyVal))
    (entries : List PyVal)
    (hc : dictGet props "content" = some (PyVal.vlist entries))
    (h : ∀ e ∈ entries, wellFormedEntry e = true ∨ claimMalformed e = true) :
    content false props =
      Except.ok (some ((entries.filter fun e => wellFormedEntry e).map
        fun e => lstripSlash (entryName e))) := by
  simp [content, hc, contentLoop_mixed entries h, Except.map]

/-- Concrete instance of the C7 theorem: one well-formed entry, one entry
with no `postgreSQLContent` key, one entry with an empty `databaseName`. -/
theorem content_malformed_excluded_w :
    content false [("content", PyVal.vlist
      [PyVal.vdict [("postgreSQLContent",
          PyVal.vdict [("databaseName", PyVal.vstr "/db1")])],
       PyVal.vdict [("otherKey", PyVal.vstr "x")],
       PyVal.vdict [("postgreSQLContent",
          PyVal.vdict [("databaseName", PyVal.vstr "")])]])] =
      Except.ok (some ["db1"]) := by
  have h := content_malformed_excluded
    [("content", PyVal.vlist
      [PyVal.vdict [("postgreSQLContent",
          PyVal.vdict [("databaseName", PyVal.vstr "/db1")])],
       PyVal.vdict [("otherKey", PyVal.vstr "x")],
       PyVal.vdict [("postgreSQLContent",
          PyVal.vdict [("databaseName", PyVal.vstr "")])]])]
    [PyVal.vdict [("postgreSQLContent",
        PyVal.vdict [("databaseName", PyVal.vstr "/db1")])],
     PyVal.vdict [("otherKey", PyVal.vstr "x")],
     PyVal.vdict [("postgreSQLContent",
        PyVal.vdict [("databaseName", PyVal.vstr "")])]]
    (by simp [dictGet]) (by decide)
  exact h.trans rfl

/-- C10: on the default subclient, or when the raw properties have no
`content` key, the property returns None (`Except.ok none`), not an empty
list; assuming the `content` value, when present, is null or a list (its
server-side type), an empty list is returned only when a `content` list is
present whose entries are all non-well-formed. -/
theorem content_none_vs_empty (props : List (String × PyVal)) :
    content true props = Except.ok none
    ∧ (dictGet props "content" = none → content false props = Except.ok none)
    ∧ ((∀ v, dictGet props "content" = some v →
          v = PyVal.vnone ∨ ∃ es, v = PyVal.vlist es) →
        content false props = Except.ok (some []) →
        ∃ es, dictGet props "content" = some (PyVal.vlist es) ∧
          ∀ e ∈ es, wellFormedEntry e = false) := by
  refine ⟨rfl, fun h => by simp [content, h], fun htyped hempty => ?_⟩
  cases hv : dictGet props "content" with
  | none =>
    rw [show content false props = Except.ok none from by simp [content, hv]]
      at hempty
    exact absurd hempty (by simp)
  | some v =>
    rcases htyped v hv with rfl | ⟨es, rfl⟩
    · rw [show content false props = Except.ok none from by simp [content, hv]]
        at hempty
      exact absurd hempty (by simp)
    · have hcc : content false props = (contentLoop es).map some := by
        simp [content, hv]
      rw [hcc] at hempty
      cases hcl : contentLoop es with
      | error u =>
        rw [hcl] at hempty
        exact absurd hempty (by simp [Except.map])
      | ok l =>
        rw [hcl] at hempty
        have hl : l = [] := by simpa [Except.map] using hempty
        subst hl
        exact ⟨es, rfl, contentLoop_ok_nil es hcl⟩

/-- Concrete instance of the C10 theorem: a `content` list with a single
entry that is an empty dict yields the empty result, so that list is indeed
present and all its entries are non-well-formed. -/
theorem content_none_vs_empty_w :
    ∃ es, dictGet [("content", PyVal.vlist [PyVal.vdict []])] "content" =
        some (PyVal.vlist es) ∧ ∀ e ∈ es, wellFormedEntry e = false := by
  refine (content_none_vs_empty _).2.2 ?_ ?_
  · intro v hv
    simp [dictGet] at hv
    subst hv
    exact Or.inr ⟨_, rfl⟩
  · rfl

/-- Chain of lookups reaching the backup-options block of a request
document: `taskInfo.subTasks[0].options.backupOpts`. -/
def backupOptsOf (r : PyVal) : Option PyVal :=
  (jget r "taskInfo").bind fun ti =>
    (jget ti "subTasks").bind fun sts =>
      (jat sts 0).bind fun st =>
        (jget st "options").bind fun o => jget o "backupOpts"

/-- C1: for every level string whose lowercase form is one of full /
incremental / differential, `backup` proceeds past validation (returns a
result); for every other string it fails with `SDKException('Subclient',
'103')` — by construction of `backup`, the error branch is taken before any
request document is built and before any transport call. -/
theorem backup_level_validation (lvl : String) (pre : Option String) :
    (pyLower lvl ∈ (["full", "incremental", "differential"] : List String) →
      ∃ r, backup lvl pre = Except.ok r)
    ∧ (pyLower lvl ∉ (["full", "incremental", "differential"] : List String) →
      backup lvl pre = Except.error ⟨"Subclient", "103"⟩) := by
  constructor
  · intro h
    cases pre with
    | none => exact ⟨BackupResult.base (pyLower lvl), by simp [backup, h]⟩
    | some p =>
      exact ⟨BackupResult.prefixed (backup_request_json (pyLower lvl) p),
        by simp [backup, h]⟩
  · intro h
    cases pre <;> simp [backup, h]

/-- Concrete instance of the C1 theorem: "FULL" passes validation in any
casing, "transaction" is rejected. -/
theorem backup_level_validation_w :
    (∃ r, backup "FULL" none = Except.ok r)
    ∧ backup "transaction" none = Except.error ⟨"Subclient", "103"⟩ :=
  ⟨(backup_level_validation "FULL" none).1 (by decide),
   (backup_level_validation "transaction" none).2 (by decide)⟩

/-- C6: for a valid level and no prefix, `backup` delegates to the generic
base-class backup path with only the lowercased level (`BackupResult.base`
records that no prefixed request document is built and this method makes no
transport call). -/
theorem backup_no_prefix_delegates (lvl : String)
    (h : pyLower lvl ∈ (["full", "incremental", "differential"] : List String)) :
    backup lvl none = Except.ok (BackupResult.base (pyLower lvl)) := by
  simp [backup, h]

/-- Concrete instance of the C6 theorem. -/
theorem backup_no_prefix_delegates_w :
    backup "Full" none = Except.ok (BackupResult.base (pyLower "Full")) :=
  backup_no_prefix_delegates "Full" (by decide)

/-- C5: a backup with a valid level and prefix "nightly" submits the
request document built by `backup_request_json`, whose
`taskInfo.subTasks[0].options.backupOpts` block carries
`backupPrefix == "nightly"` (inside the merged `hanaOptions` entry), and
whose subtask was built with the "BEFORE_SYNTH" strategy tag and the
synthetic-full flag set to false (not a synthetic full). -/
theorem backup_prefixed_request_doc :
    backup "full" (some "nightly") =
      Except.ok (BackupResult.prefixed (backup_request_json "full" "nightly"))
    ∧ (backupOptsOf (backup_request_json "full" "nightly")).bind
        (fun bo => (jget bo "hanaOptions").bind fun ho =>
          jget ho "backupPrefix") = some (PyVal.vstr "nightly")
    ∧ (backupOptsOf (backup_request_json "full" "nightly")).bind
        (fun bo => jget bo "strategy") = some (PyVal.vstr "BEFORE_SYNTH")
    ∧ (backupOptsOf (backup_request_json "full" "nightly")).bind
        (fun bo => jget bo "syntheticFull") = some (PyVal.vbool false) := by
  refine ⟨?_, rfl, rfl, rfl⟩
  simp only [backup]
  rw [if_neg (by decide)]
  rfl

/-- Association-list update then lookup at the same key. -/
theorem dictGet_dictSet_same (kvs : List (String × PyVal)) (k : String)
    (v : PyVal) : dictGet (dictSet kvs k v) k = some v := by
  induction kvs with
  | nil => simp [dictSet, dictGet]
  | cons p rest ih =>
    obtain ⟨k', v'⟩ := p
    by_cases h : k' = k
    · simp [dictSet, dictGet, h]
    · simp [dictSet, dictGet, h, ih]

/-- C8: after `_get_subclient_properties`, the properties mapping always
contains the `postgreSQLSubclientProp` key (so the final read cannot fail),
the PostgreSQL cache field equals that sub-mapping, and when the server
payload lacks the key it is initialized to an empty mapping. -/
theorem get_subclient_properties_ensures_key (props : List (String × PyVal)) :
    (get_subclient_properties props).2 =
      dictGet (get_subclient_properties props).1 "postgreSQLSubclientProp"
    ∧ (∃ m, (get_subclient_properties props).2 = some m)
    ∧ (dictGet props "postgreSQLSubclientProp" = none →
        (get_subclient_properties props).2 = some (PyVal.vdict [])) := by
  refine ⟨rfl, ?_, ?_⟩
  · cases hv : dictGet props "postgreSQLSubclientProp" with
    | none =>
      exact ⟨PyVal.vdict [],
        by simp [get_subclient_properties, hv, dictGet_dictSet_same]⟩
    | some m =>
      exact ⟨m, by simp [get_subclient_properties, hv]⟩
  · intro hv
    simp [get_subclient_properties, hv, dictGet_dictSet_same]

/-- Concrete instance of the C8 theorem: an empty server payload gains the
key, initialized to an empty mapping. -/
theorem get_subclient_properties_ensures_key_w :
    (get_subclient_properties ([] : List (String × PyVal))).2 =
      some (PyVal.vdict []) :=
  (get_subclient_properties_ensures_key []).2.2 rfl

/-- Closed form of `restore_postgres_server`: one association assignment
followed by one `restore_in_place` call with the resolved arguments. -/
theorem restore_eq (env : RestoreEnv) (dbl : Option (List String))
    (dc di : Option String) (cp : Option Int) (ft tt : Option String)
    (ce : Bool) (co : Option PyVal) :
    restore_postgres_server env dbl dc di cp ft tt ce co =
      [REvent.setRestoreAssociation env.subClientEntity,
       REvent.restoreInPlace
         { databaseList :=
             if pyLower env.backupsetName = "fsbasedbackupset" then
               some ["/data"]
             else dbl
           destClientName := dc.getD env.clientName
           destInstanceName := di.getD env.instanceName
           backupsetName := env.backupsetName
           backupsetFlag :=
             if pyLower env.backupsetName = "fsbasedbackupset" then true
             else false
           copyPrecedence := cp
           fromTime := ft
           toTime := tt
           cloneEnv := ce
           cloneOptions := co }] := by
  cases dc <;> cases di <;>
    by_cases h : pyLower env.backupsetName = "fsbasedbackupset" <;>
      simp [restore_postgres_server, h, Option.getD]

/-- C3: when the owning backupset's name case-insensitively equals
"fsbasedbackupset", the database list passed to the in-place restore is
exactly ["/data"] regardless of the caller's list and the backupset flag is
true; otherwise the flag is false and the caller's list is passed through
unchanged. -/
theorem restore_fsbased_backupset (env : RestoreEnv)
    (dbl : Option (List String)) (dc di : Option String) (cp : Option Int)
    (ft tt : Option String) (ce : Bool) (co : Option PyVal) :
    (pyLower env.backupsetName = "fsbasedbackupset" →
      ∃ call, restore_postgres_server env dbl dc di cp ft tt ce co =
          [REvent.setRestoreAssociation env.subClientEntity,
           REvent.restoreInPlace call]
        ∧ call.databaseList = some ["/data"] ∧ call.backupsetFlag = true)
    ∧ (pyLower env.backupsetName ≠ "fsbasedbackupset" →
      ∃ call, restore_postgres_server env dbl dc di cp ft tt ce co =
          [REvent.setRestoreAssociation env.subClientEntity,
           REvent.restoreInPlace call]
        ∧ call.databaseList = dbl ∧ call.backupsetFlag = false) := by
  constructor
  · intro h
    exact ⟨_, restore_eq env dbl dc di cp ft tt ce co, by simp [h], by simp [h]⟩
  · intro h
    exact ⟨_, restore_eq env dbl dc di cp ft tt ce co, by simp [h], by simp [h]⟩

/-- Concrete instance of the C3 theorem, in both branches. -/
theorem restore_fsbased_backupset_w :
    (∃ call, restore_postgres_server
        ⟨"client1", "pg1", "FSBasedBackupSet", PyVal.vnone⟩
        (some ["mydb"]) none none none none none false none =
        [REvent.setRestoreAssociation PyVal.vnone,
         REvent.restoreInPlace call]
      ∧ call.databaseList = some ["/data"] ∧ call.backupsetFlag = true)
    ∧ (∃ call, restore_postgres_server
        ⟨"client1", "pg1", "logicalbackupset", PyVal.vnone⟩
        (some ["mydb"]) none none none none none false none =
        [REvent.setRestoreAssociation PyVal.vnone,
         REvent.restoreInPlace call]
      ∧ call.databaseList = some ["mydb"] ∧ call.backupsetFlag = false) :=
  ⟨(restore_fsbased_backupset ⟨"client1", "pg1", "FSBasedBackupSet",
      PyVal.vnone⟩ (some ["mydb"]) none none none none none false none).1
    (by decide),
   (restore_fsbased_backupset ⟨"client1", "pg1", "logicalbackupset",
      PyVal.vnone⟩ (some ["mydb"]) none none none none none false none).2
    (by decide)⟩

/-- C4: the destination client name passed to the in-place restore is the
caller's value when supplied and the owning instance's client name
otherwise; likewise the destination instance name defaults to the current
instance's name. -/
theorem restore_destination_defaults (env : RestoreEnv)
    (dbl : Option (List String)) (dc di : Option String) (cp : Option Int)
    (ft tt : Option String) (ce : Bool) (co : Option PyVal) :
    ∃ call, restore_postgres_server env dbl dc di cp ft tt ce co =
        [REvent.setRestoreAssociation env.subClientEntity,
         REvent.restoreInPlace call]
      ∧ call.destClientName = dc.getD env.clientName
      ∧ call.destInstanceName = di.getD env.instanceName :=
  ⟨_, restore_eq env dbl dc di cp ft tt ce co, rfl, rfl⟩

/-- C9: every call to `restore_postgres_server` first sets the owning
instance's `_restore_association` to this subclient's entity identity and
then delegates to `restore_in_place` — unconditionally, whatever the
arguments. -/
theorem restore_sets_restore_association (env : RestoreEnv)
    (dbl : Option (List String)) (dc di : Option String) (cp : Option Int)
    (ft tt : Option String) (ce : Bool) (co : Option PyVal) :
    ∃ call, restore_postgres_server env dbl dc di cp ft tt ce co =
      [REvent.setRestoreAssociation env.subClientEntity,
       REvent.restoreInPlace call] :=
  ⟨_, restore_eq env dbl dc di cp ft tt ce co⟩
